import Mathlib

set_option autoImplicit false

/-
Verification of the room-scoped connection registry and broadcast relay
implemented in `backend/main.py`.

The program keeps a module-level dictionary `rooms: Dict[str, List[WebSocket]]`.
Each websocket handler (`websocket_endpoint`):
  * accepts the connection, creates the room entry if absent, appends itself;
  * loops: `data = await ws.receive_json()`, classifies `data.get("type")`
    (logging only), then sends `data` to every `client in rooms[room_id]`
    with `client != ws`;
  * on `WebSocketDisconnect`: `rooms[room_id].remove(ws)` and deletes the
    room entry when the member list became empty.

The embedding below models connections as natural numbers (object identity),
JSON records as association lists, the registry as an association list with
unique keys (a Python dict), fallible operations as `Option` (where `none`
models a raised exception leaving the state unchanged), and the per-recipient
sends of a broadcast through an outcome function `ok : Conn → Bool`
(`ok c = false` models `client.send_json` raising on recipient `c`).
-/

namespace Vynk

/-- A connection handle; Python compares `WebSocket` objects by identity,
so an abstract identifier suffices. -/
abbrev Conn := Nat

/-- A JSON value as far as this program inspects one: the `type` field is
compared against string literals, everything else is passed through opaque. -/
inductive JValue where
  | str : String → JValue
  | num : Int → JValue
  | boolean : Bool → JValue
  | null : JValue
deriving DecidableEq

/-- A wire message: the structured record produced by `ws.receive_json()`,
a map of named fields. -/
abbrev Message := List (String × JValue)

/-- Field lookup, modelling Python `data.get(key)` (returns `None`,
here `none`, when the key is absent). -/
def msgGet : Message → String → Option JValue
  | [], _ => none
  | (k, v) :: rest, key => if k = key then some v else msgGet rest key

/-- The three logging categories distinguished by the if/elif/else chain on
`message_type`. -/
inductive Category where
  | content
  | signal
  | unknown
deriving DecidableEq

/-- Python `message_type in [s1, s2, ...]` where `message_type` is
`data.get("type")`: only a string value can equal a string literal, so `None`
(absent field) and non-string values never match. -/
def pyStrIn (v : Option JValue) (l : List String) : Bool :=
  match v with
  | some (JValue.str t) => l.contains t
  | _ => false

/-- The classification chain of `websocket_endpoint`:
`if message_type in ["chat", "image", "file"]: ... elif message_type in
["offer", "answer", "ice"]: ... else: ...` — used only to choose a log line. -/
def classify (data : Message) : Category :=
  if pyStrIn (msgGet data "type") ["chat", "image", "file"] then Category.content
  else if pyStrIn (msgGet data "type") ["offer", "answer", "ice"] then Category.signal
  else Category.unknown

/-- The module-level `rooms: Dict[str, List[WebSocket]]`. A Python dict is
insertion-ordered with unique keys; we model it as an association list and
carry key uniqueness as a hypothesis where a claim needs it. -/
abbrev Registry := List (String × List Conn)

/-- Dict lookup `rooms[room_id]` / membership test `room_id in rooms`
(`none` = key absent). -/
def dictGet : Registry → String → Option (List Conn)
  | [], _ => none
  | (k, v) :: rest, key => if k = key then some v else dictGet rest key

/-- Dict update `rooms[room_id] = l` for a key already present: replaces the
value at the (unique) matching key. -/
def dictSet : Registry → String → List Conn → Registry
  | [], _, _ => []
  | (k, v) :: rest, key, l =>
      if k = key then (k, l) :: rest else (k, v) :: dictSet rest key l

/-- Dict deletion `del rooms[room_id]`: removes the (unique) entry with the
given key. -/
def dictDel : Registry → String → Registry
  | [], _ => []
  | (k, v) :: rest, key =>
      if k = key then rest else (k, v) :: dictDel rest key

/-- The guard `if room_id not in rooms: rooms[room_id] = []` — a new dict key
is appended at the end of the insertion order. -/
def ensureRoom (rooms : Registry) (roomId : String) : Registry :=
  match dictGet rooms roomId with
  | some _ => rooms
  | none => rooms ++ [(roomId, [])]

/-- The call `rooms[room_id].append(ws)`: appends to the member list of the
(unique) entry with the given key, other entries untouched. -/
def appendMember : Registry → String → Conn → Registry
  | [], _, _ => []
  | (k, l) :: rest, roomId, ws =>
      if k = roomId then (k, l ++ [ws]) :: rest
      else (k, l) :: appendMember rest roomId ws

/-- The join performed on connect (lines 22-25 of the source):
create the room entry if absent, then append the connection. -/
def join (rooms : Registry) (roomId : String) (ws : Conn) : Registry :=
  appendMember (ensureRoom rooms roomId) roomId ws

/-- Python `list.remove(x)` removes the first occurrence only (the raising
case, `x` absent, is handled by `leave`). -/
def removeFirst : List Conn → Conn → List Conn
  | [], _ => []
  | c :: rest, ws => if c = ws then rest else c :: removeFirst rest ws

/-- The disconnect handler (lines 50-54 of the source):
`rooms[room_id].remove(ws)` followed by
`if not rooms[room_id]: del rooms[room_id]`.
`none` models a raised exception with the registry unchanged: a `KeyError`
when `room_id` has no entry, a `ValueError` from `list.remove` when `ws` is
not in the member list. -/
def leave (rooms : Registry) (roomId : String) (ws : Conn) : Option Registry :=
  match dictGet rooms roomId with
  | none => none
  | some l =>
      if ws ∈ l then
        let l2 := removeFirst l ws
        let rooms2 := dictSet rooms roomId l2
        if l2 = [] then some (dictDel rooms2 roomId) else some rooms2
      else none

/-- The broadcast loop (lines 46-48 of the source):
`for client in rooms[room_id]: if client != ws: await client.send_json(data)`.
`ok c = false` models `client.send_json` raising on recipient `c`; the
exception aborts the `for` loop, so the result is the list of deliveries
performed before the failure, paired with whether an exception was raised. -/
def broadcastRun : List Conn → Conn → Message → (Conn → Bool) → List (Conn × Message) × Bool
  | [], _, _, _ => ([], false)
  | c :: rest, ws, m, ok =>
      if c = ws then broadcastRun rest ws m ok
      else if ok c then
        let r := broadcastRun rest ws m ok
        ((c, m) :: r.1, r.2)
      else ([], true)

/-- The recipients that the broadcast loop reaches, independent of the
message being sent: proof device used to show delivery never depends on the
message content or its classification. -/
def bcastRecip : List Conn → Conn → (Conn → Bool) → List Conn × Bool
  | [], _, _ => ([], false)
  | c :: rest, ws, ok =>
      if c = ws then bcastRecip rest ws ok
      else if ok c then
        let r := bcastRecip rest ws ok
        (c :: r.1, r.2)
      else ([], true)

/-- One observable event of the receive loop: a successfully parsed message,
a `WebSocketDisconnect` raised by `receive_json`, or any other exception
raised by `receive_json` (e.g. `json.JSONDecodeError` on an unparseable
frame). -/
inductive RecvEvent where
  | msg : Message → RecvEvent
  | disconnect : RecvEvent
  | readError : RecvEvent
deriving DecidableEq

/-- How a (finite prefix of a) run of `websocket_endpoint` ends. -/
inductive Status where
  /-- the event prefix is exhausted and the `while True` loop is still
  waiting for the next message (the connection is still Joined) -/
  | running
  /-- `WebSocketDisconnect` was caught and the removal code completed -/
  | done
  /-- an exception other than `WebSocketDisconnect` escaped from
  `receive_json`: nothing catches it, the handler terminates -/
  | crashedRecv
  /-- `rooms[room_id]` raised `KeyError` at the broadcast loop head -/
  | crashedLookup
  /-- `client.send_json` raised during the broadcast `for` loop: not a
  `WebSocketDisconnect`, so nothing catches it and the handler terminates -/
  | crashedSend
  /-- the removal code inside the `except` block itself raised -/
  | crashedLeave
deriving DecidableEq

/-- The observable outcome of running the handler body on a finite event
prefix: final registry, the deliveries made (in order), how the run ended,
and how many times the removal code (`Leave`) was entered. -/
structure RunResult where
  registry : Registry
  deliveries : List (Conn × Message)
  status : Status
  leaveCalls : Nat
deriving DecidableEq

/-- The `try: while True: ... except WebSocketDisconnect: ...` body of
`websocket_endpoint` (lines 29-54 of the source), run on a finite prefix of
receive events. Each `msg` event re-reads `rooms[room_id]` (as the `for`
loop header does), broadcasts, and continues; `disconnect` is the only
caught exception and runs the removal code exactly once; any other receive
exception, and any send exception, escapes uncaught. -/
def runLoop (rooms : Registry) (roomId : String) (ws : Conn) (ok : Conn → Bool) :
    List RecvEvent → RunResult
  | [] => ⟨rooms, [], Status.running, 0⟩
  | RecvEvent.disconnect :: _ =>
      match leave rooms roomId ws with
      | some rooms2 => ⟨rooms2, [], Status.done, 1⟩
      | none => ⟨rooms, [], Status.crashedLeave, 1⟩
  | RecvEvent.readError :: _ => ⟨rooms, [], Status.crashedRecv, 0⟩
  | RecvEvent.msg m :: rest =>
      match dictGet rooms roomId with
      | none => ⟨rooms, [], Status.crashedLookup, 0⟩
      | some members =>
          let r := broadcastRun members ws m ok
          if r.2 then ⟨rooms, r.1, Status.crashedSend, 0⟩
          else
            let k := runLoop rooms roomId ws ok rest
            ⟨k.registry, r.1 ++ k.deliveries, k.status, k.leaveCalls⟩

/-! ### Sample messages used by witnesses and counterexamples -/

/-- The message of the spec scenario:
a record with fields type, sender and text. -/
def msgChat : Message :=
  [("type", JValue.str "chat"), ("sender", JValue.str "X"), ("text", JValue.str "hi")]

/-- A record with no type field at all. -/
def msgNoType : Message := [("text", JValue.str "hi")]

/-- A signaling message. -/
def msgOffer : Message :=
  [("type", JValue.str "offer"), ("sender", JValue.str "X"), ("sdp", JValue.str "v=0")]

/-! ### Characterization lemmas for the broadcast loop -/

/-- A broadcast delivers the whole inbound record, unchanged, to a recipient
list that does not depend on the message. -/
theorem broadcastRun_eq (members : List Conn) (ws : Conn) (m : Message) (ok : Conn → Bool) :
    broadcastRun members ws m ok =
      ((bcastRecip members ws ok).1.map (fun c => (c, m)), (bcastRecip members ws ok).2) := by
  induction members with
  | nil => rfl
  | cons c rest ih =>
      by_cases h : c = ws
      · simp [broadcastRun, bcastRecip, h, ih]
      · by_cases h2 : ok c
        · simp [broadcastRun, bcastRecip, h, h2, ih]
        · simp [broadcastRun, bcastRecip, h, h2]

/-- When every send succeeds, the broadcast loop reaches exactly the members
other than the sender, in list order, and raises nothing. -/
theorem bcastRecip_all_ok (members : List Conn) (ws : Conn) (ok : Conn → Bool)
    (hok : ∀ c ∈ members, c ≠ ws → ok c = true) :
    bcastRecip members ws ok = (members.filter (fun c => c != ws), false) := by
  induction members with
  | nil => rfl
  | cons c rest ih =>
      have ihr : bcastRecip rest ws ok = (rest.filter (fun c => c != ws), false) :=
        ih (fun x hx hxw => hok x (List.mem_cons_of_mem c hx) hxw)
      by_cases h : c = ws
      · simp [bcastRecip, h, ihr, List.filter_cons]
      · have hc : ok c = true := hok c (List.mem_cons_self c rest) h
        simp [bcastRecip, h, hc, ihr, List.filter_cons]

/-- Counting a pairing of a fixed message over a list of connections counts
the connections. -/
theorem count_pair_map (l : List Conn) (c : Conn) (m : Message) :
    (l.map (fun x => (x, m))).count (c, m) = l.count c := by
  induction l with
  | nil => rfl
  | cons a rest ih =>
      by_cases h : a = c <;>
        simp [List.count_cons, h, ih]

/-! ### Claim C1 -/

/-- C1: for every room whose member collection contains the sender and every
message received from that sender, the broadcast (when every send succeeds)
raises nothing, delivers the message exactly once to each member of the room
other than the sender, and every delivery made goes to a non-sender and
carries the inbound record unmodified. -/
theorem broadcast_once_to_others (members : List Conn) (ws : Conn) (m : Message)
    (ok : Conn → Bool) (hmem : ws ∈ members) (hnd : members.Nodup)
    (hok : ∀ c ∈ members, ok c = true) :
    (broadcastRun members ws m ok).2 = false ∧
    (∀ c ∈ members, c ≠ ws → (broadcastRun members ws m ok).1.count (c, m) = 1) ∧
    (∀ d ∈ (broadcastRun members ws m ok).1, d.1 ≠ ws ∧ d.2 = m) := by
  have hok' : ∀ c ∈ members, c ≠ ws → ok c = true := fun c hc _ => hok c hc
  rw [broadcastRun_eq, bcastRecip_all_ok members ws ok hok']
  dsimp only
  refine ⟨rfl, ?_, ?_⟩
  · intro c hc hcw
    rw [count_pair_map]
    exact List.count_eq_one_of_mem (hnd.filter _)
      (List.mem_filter.mpr ⟨hc, by simpa using hcw⟩)
  · intro d hd
    simp only [List.mem_map, List.mem_filter] at hd
    rcases hd with ⟨c, ⟨_, hcw⟩, rfl⟩
    exact ⟨by simpa using hcw, rfl⟩

/-- Witness for C1 at the spec scenario: room with members X=1, Y=2, sender 1;
Y receives the chat record exactly once. -/
theorem broadcast_once_to_others_witness :
    (broadcastRun [1, 2] 1 msgChat (fun _ => true)).1.count (2, msgChat) = 1 :=
  (broadcast_once_to_others [1, 2] 1 msgChat (fun _ => true)
    (by decide) (by decide) (by decide)).2.1 2 (by decide) (by decide)

/-! ### Claim C7 -/

/-- C7: two messages are relayed to exactly the same recipients with the same
error outcome whatever their fields (in particular when they differ only in
type), delivery is verbatim pass-through of the whole record, and one
message step of the handler loop reaches the same status and registry for
both: classification affects only logging, never delivery, content, or
filtering. -/
theorem relay_ignores_classification (members : List Conn) (ws : Conn) (ok : Conn → Bool)
    (m1 m2 : Message) (rooms : Registry) (roomId : String) :
    (broadcastRun members ws m1 ok).1.map Prod.fst
      = (broadcastRun members ws m2 ok).1.map Prod.fst ∧
    (broadcastRun members ws m1 ok).2 = (broadcastRun members ws m2 ok).2 ∧
    (∀ d ∈ (broadcastRun members ws m1 ok).1, d.2 = m1) ∧
    (runLoop rooms roomId ws ok [RecvEvent.msg m1]).status
      = (runLoop rooms roomId ws ok [RecvEvent.msg m2]).status ∧
    (runLoop rooms roomId ws ok [RecvEvent.msg m1]).registry
      = (runLoop rooms roomId ws ok [RecvEvent.msg m2]).registry := by
  refine ⟨?_, ?_, ?_, ?_, ?_⟩
  · rw [broadcastRun_eq members ws m1, broadcastRun_eq members ws m2]
    simp
  · rw [broadcastRun_eq members ws m1, broadcastRun_eq members ws m2]
  · rw [broadcastRun_eq members ws m1]
    intro d hd
    simp only [List.mem_map] at hd
    rcases hd with ⟨c, _, rfl⟩
    rfl
  · cases hg : dictGet rooms roomId with
    | none => simp [runLoop, hg]
    | some mem =>
        simp only [runLoop, hg, broadcastRun_eq]
        cases he : (bcastRecip mem ws ok).2 <;> simp [he, runLoop]
  · cases hg : dictGet rooms roomId with
    | none => simp [runLoop, hg]
    | some mem =>
        simp only [runLoop, hg, broadcastRun_eq]
        cases he : (bcastRecip mem ws ok).2 <;> simp [he, runLoop]

/-- Witness for C7: an offer and a chat record go to the same recipients. -/
theorem relay_ignores_classification_witness :
    (broadcastRun [1, 2, 3] 1 msgOffer (fun _ => true)).1.map Prod.fst
      = (broadcastRun [1, 2, 3] 1 msgChat (fun _ => true)).1.map Prod.fst :=
  (relay_ignores_classification [1, 2, 3] 1 (fun _ => true) msgOffer msgChat
    [("r1", [1, 2, 3])] "r1").1

/-! ### Claim C9 -/

/-- C9: a sole member of a room that sends a message gets no recipients and
no error: the broadcast over the one-element member list delivers nothing
and raises nothing, and the handler step leaves the registry unchanged,
delivers nothing, stays in the loop, and the room still holds exactly the
sender afterward. -/
theorem lone_member_send_noop (rooms : Registry) (roomId : String) (ws : Conn)
    (ok : Conn → Bool) (m : Message)
    (hget : dictGet rooms roomId = some [ws]) :
    broadcastRun [ws] ws m ok = ([], false) ∧
    runLoop rooms roomId ws ok [RecvEvent.msg m] = ⟨rooms, [], Status.running, 0⟩ ∧
    dictGet (runLoop rooms roomId ws ok [RecvEvent.msg m]).registry roomId = some [ws] := by
  have hb : broadcastRun [ws] ws m ok = ([], false) := by simp [broadcastRun]
  have hr : runLoop rooms roomId ws ok [RecvEvent.msg m] = ⟨rooms, [], Status.running, 0⟩ := by
    simp [runLoop, hget, hb]
  exact ⟨hb, hr, by rw [hr]; exact hget⟩

/-- Witness for C9: client 1 alone in room r1 sends the chat record. -/
theorem lone_member_send_noop_witness :
    runLoop [("r1", [1])] "r1" 1 (fun _ => true) [RecvEvent.msg msgChat]
      = ⟨[("r1", [1])], [], Status.running, 0⟩ :=
  (lone_member_send_noop [("r1", [1])] "r1" 1 (fun _ => true) msgChat (by decide)).2.1

/-! ### Claim C2 -/

/-- C2 counterexample: in room r1 with members 1, 2, 3, sender 1 broadcasts
while the send to recipient 2 raises; recipient 3 then receives nothing, the
exception propagates out of the loop, and the handler step ends in an
uncaught send crash — the failure was not isolated to recipient 2. -/
theorem send_failure_not_isolated :
    (broadcastRun [1, 2, 3] 1 msgChat (fun c => c != 2)).1.count (3, msgChat) = 0 ∧
    (broadcastRun [1, 2, 3] 1 msgChat (fun c => c != 2)).2 = true ∧
    (runLoop [("r1", [1, 2, 3])] "r1" 1 (fun c => c != 2)
        [RecvEvent.msg msgChat]).status = Status.crashedSend ∧
    (runLoop [("r1", [1, 2, 3])] "r1" 1 (fun c => c != 2)
        [RecvEvent.msg msgChat]).leaveCalls = 0 := by
  decide

/-- C2 amended: a failed send to one recipient aborts the broadcast loop —
exactly the non-sender members listed before the failing recipient receive
the message, everyone after receives nothing — and the exception escapes the
handler, ending the sender's receive loop in a send crash with no Leave
call and the registry unchanged. -/
theorem send_failure_aborts_broadcast (pre post : List Conn) (c ws : Conn) (m : Message)
    (ok : Conn → Bool) (hc : c ≠ ws) (hfail : ok c = false)
    (hpre : ∀ x ∈ pre, x = ws ∨ ok x = true) :
    broadcastRun (pre ++ c :: post) ws m ok
      = ((pre.filter (fun x => x != ws)).map (fun x => (x, m)), true) ∧
    (∀ rooms roomId, dictGet rooms roomId = some (pre ++ c :: post) →
      runLoop rooms roomId ws ok [RecvEvent.msg m]
        = ⟨rooms, (pre.filter (fun x => x != ws)).map (fun x => (x, m)),
            Status.crashedSend, 0⟩) := by
  have hb : broadcastRun (pre ++ c :: post) ws m ok
      = ((pre.filter (fun x => x != ws)).map (fun x => (x, m)), true) := by
    induction pre with
    | nil => simp [broadcastRun, hc, hfail]
    | cons a rest ih =>
        have ihr := ih (fun x hx => hpre x (List.mem_cons_of_mem a hx))
        rcases hpre a (List.mem_cons_self a rest) with ha | ha
        · subst ha
          simp [broadcastRun, ihr, List.filter_cons]
        · by_cases haw : a = ws
          · subst haw
            simp [broadcastRun, ihr, List.filter_cons]
          · simp [broadcastRun, haw, ha, ihr, List.filter_cons]
  refine ⟨hb, ?_⟩
  intro rooms roomId hget
  simp [runLoop, hget, hb]

/-- Witness for C2 amended: members 1, 2, 3, sender 1, send to 2 fails. -/
theorem send_failure_aborts_broadcast_witness :
    broadcastRun ([1] ++ 2 :: [3]) 1 msgChat (fun c => c != 2)
      = (([1].filter (fun x => x != 1)).map (fun x => (x, msgChat)), true) :=
  (send_failure_aborts_broadcast [1] [3] 2 1 msgChat (fun c => c != 2)
    (by decide) (by decide) (by decide)).1

/-! ### Dictionary lemmas -/

/-- Lookup fails exactly on keys absent from the dict. -/
theorem dictGet_none_iff (rooms : Registry) (k : String) :
    dictGet rooms k = none ↔ k ∉ rooms.map Prod.fst := by
  induction rooms with
  | nil => simp [dictGet]
  | cons p rest ih =>
      by_cases h : p.1 = k
      · simp [dictGet, h]
      · rw [dictGet, if_neg h, ih]
        simp only [List.map_cons, List.mem_cons]
        constructor
        · intro hk
          push_neg
          exact ⟨fun he => h he.symm, hk⟩
        · intro hk
          push_neg at hk
          exact hk.2

/-- Lookup in an appended dict ignores the right part when the left part has
the key. -/
theorem dictGet_append_left (rooms rest : Registry) (k : String) (l : List Conn)
    (h : dictGet rooms k = some l) : dictGet (rooms ++ rest) k = some l := by
  induction rooms with
  | nil => simp [dictGet] at h
  | cons p rs ih =>
      by_cases hp : p.1 = k
      · simpa [dictGet, hp] using h
      · simp only [dictGet, hp, if_neg] at h ⊢
        simpa [dictGet, hp] using ih h

/-- Lookup in an appended dict falls through to the right part when the left
part lacks the key. -/
theorem dictGet_append_right (rooms rest : Registry) (k : String)
    (h : dictGet rooms k = none) : dictGet (rooms ++ rest) k = dictGet rest k := by
  induction rooms with
  | nil => simp
  | cons p rs ih =>
      by_cases hp : p.1 = k
      · simp [dictGet, hp] at h
      · simp only [dictGet, hp, if_neg] at h
        simpa [dictGet, hp] using ih h

/-- Appending a member to a room's list never changes the dict's keys. -/
theorem appendMember_keys (rooms : Registry) (r : String) (ws : Conn) :
    (appendMember rooms r ws).map Prod.fst = rooms.map Prod.fst := by
  induction rooms with
  | nil => rfl
  | cons p rest ih =>
      by_cases hp : p.1 = r <;> simp [appendMember, hp, ih]

/-- Appending a member updates the first entry with the key. -/
theorem dictGet_appendMember_self (rooms : Registry) (r : String) (ws : Conn) (l : List Conn)
    (h : dictGet rooms r = some l) :
    dictGet (appendMember rooms r ws) r = some (l ++ [ws]) := by
  induction rooms with
  | nil => simp [dictGet] at h
  | cons p rest ih =>
      by_cases hp : p.1 = r
      · simp only [dictGet, hp, if_pos] at h
        cases h
        simp [appendMember, hp, dictGet]
      · simp only [dictGet, hp, if_neg] at h
        simpa [appendMember, hp, dictGet] using ih h

/-- Appending a member to one room leaves every other key's lookup alone. -/
theorem dictGet_appendMember_ne (rooms : Registry) (r : String) (ws : Conn) (k : String)
    (h : k ≠ r) : dictGet (appendMember rooms r ws) k = dictGet rooms k := by
  have hrk : ¬ r = k := fun hh => h hh.symm
  induction rooms with
  | nil => rfl
  | cons p rest ih =>
      by_cases hp : p.1 = r
      · simp [appendMember, hp, dictGet, hrk]
      · by_cases hk : p.1 = k <;> simp [appendMember, hp, dictGet, hk, h, ih]

/-- Replacing a room's list never changes the dict's keys. -/
theorem dictSet_keys (rooms : Registry) (r : String) (l : List Conn) :
    (dictSet rooms r l).map Prod.fst = rooms.map Prod.fst := by
  induction rooms with
  | nil => rfl
  | cons p rest ih =>
      by_cases hp : p.1 = r <;> simp [dictSet, hp, ih]

/-- An entry of a dict after a replacement, under unique keys, is the
replacement entry or an untouched entry with a different key. -/
theorem mem_dictSet_nodup (rooms : Registry) (r : String) (l : List Conn)
    (p : String × List Conn) (hkeys : (rooms.map Prod.fst).Nodup)
    (hp : p ∈ dictSet rooms r l) : p = (r, l) ∨ (p ∈ rooms ∧ p.1 ≠ r) := by
  induction rooms with
  | nil => simp [dictSet] at hp
  | cons q rest ih =>
      rw [List.map_cons, List.nodup_cons] at hkeys
      by_cases hq : q.1 = r
      · rw [dictSet, if_pos hq] at hp
        rcases List.mem_cons.mp hp with h | h
        · left; rw [h, hq]
        · right
          refine ⟨List.mem_cons_of_mem q h, ?_⟩
          intro hpr
          exact hkeys.1 (by rw [hq, ← hpr]; exact List.mem_map_of_mem Prod.fst h)
      · rw [dictSet, if_neg hq] at hp
        rcases List.mem_cons.mp hp with h | h
        · right; exact ⟨by rw [h]; exact List.mem_cons_self q rest, by rw [h]; exact hq⟩
        · rcases ih hkeys.2 h with h2 | h2
          · left; exact h2
          · right; exact ⟨List.mem_cons_of_mem q h2.1, h2.2⟩

/-- An entry of a dict after a deletion, under unique keys, is an untouched
entry with a different key. -/
theorem mem_dictDel_nodup (rooms : Registry) (r : String)
    (p : String × List Conn) (hkeys : (rooms.map Prod.fst).Nodup)
    (hp : p ∈ dictDel rooms r) : p ∈ rooms ∧ p.1 ≠ r := by
  induction rooms with
  | nil => simp [dictDel] at hp
  | cons q rest ih =>
      rw [List.map_cons, List.nodup_cons] at hkeys
      by_cases hq : q.1 = r
      · rw [dictDel, if_pos hq] at hp
        refine ⟨List.mem_cons_of_mem q hp, ?_⟩
        intro hpr
        exact hkeys.1 (by rw [hq, ← hpr]; exact List.mem_map_of_mem Prod.fst hp)
      · rw [dictDel, if_neg hq] at hp
        rcases List.mem_cons.mp hp with h | h
        · exact ⟨by rw [h]; exact List.mem_cons_self q rest, by rw [h]; exact hq⟩
        · have := ih hkeys.2 h
          exact ⟨List.mem_cons_of_mem q this.1, this.2⟩

/-- Deleting a key, under unique keys, makes its lookup fail. -/
theorem dictGet_dictDel_self (rooms : Registry) (r : String)
    (hkeys : (rooms.map Prod.fst).Nodup) : dictGet (dictDel rooms r) r = none := by
  rw [dictGet_none_iff]
  intro hmem
  rcases List.mem_map.mp hmem with ⟨p, hp, hp1⟩
  exact (mem_dictDel_nodup rooms r p hkeys hp).2 hp1

/-! ### Lemmas about removing the first occurrence -/

/-- After removing a connection that occurred exactly once, it is gone. -/
theorem removeFirst_not_mem (l : List Conn) (ws : Conn) (h : l.count ws = 1) :
    ws ∉ removeFirst l ws := by
  induction l with
  | nil => simp [removeFirst]
  | cons a rest ih =>
      by_cases ha : a = ws
      · subst ha
        have h0 : rest.count a = 0 := by simpa [List.count_cons] using h
        simpa [removeFirst] using List.count_eq_zero.mp h0
      · have h1 : rest.count ws = 1 := by simpa [List.count_cons, ha] using h
        intro hmem
        rw [removeFirst, if_neg ha] at hmem
        rcases List.mem_cons.mp hmem with hh | hh
        · exact ha hh.symm
        · exact ih h1 hh

/-! ### Claim C3 -/

/-- C3 counterexample: calling the disconnect-removal code for connection 1,
which is registered in no room, raises instead of being a no-op — a
ValueError from `list.remove` when the room exists without the connection,
and a KeyError when the registry is empty (`none` models the raised
exception). -/
theorem leave_unregistered_raises_concrete :
    leave [("r1", [2])] "r1" 1 = none ∧ leave [] "r1" 1 = none := by
  decide

/-- C3 amended: invoking the removal code on a connection that is not
currently registered raises an exception (KeyError when the room has no
entry, ValueError from `list.remove` when the connection is not in the
member list) and produces no modified registry, rather than being a silent
no-op. -/
theorem leave_unregistered_raises (rooms : Registry) (roomId : String) (ws : Conn)
    (h : ∀ l, dictGet rooms roomId = some l → ws ∉ l) :
    leave rooms roomId ws = none := by
  unfold leave
  cases hg : dictGet rooms roomId with
  | none => rfl
  | some l => simp [h l hg]

/-- Witness for C3 amended: connection 3 is not in room r1's member list. -/
theorem leave_unregistered_raises_witness :
    leave [("r1", [1, 2])] "r1" 3 = none :=
  leave_unregistered_raises [("r1", [1, 2])] "r1" 3 (by decide)

/-! ### Claim C5 -/

/-- C5: when a registered connection disconnects (it occurs exactly once in
its room's member list, in no other room's list, and no room is empty), the
removal code succeeds; afterwards the connection is a member of no room, no
room entry is empty, and if it was the last member its room's entry is gone
from the registry. -/
theorem disconnect_removes_membership (rooms : Registry) (roomId : String) (ws : Conn)
    (l : List Conn)
    (hkeys : (rooms.map Prod.fst).Nodup)
    (hget : dictGet rooms roomId = some l)
    (hcount : l.count ws = 1)
    (honly : ∀ p ∈ rooms, p.1 = roomId ∨ ws ∉ p.2)
    (hne : ∀ p ∈ rooms, p.2 ≠ []) :
    ∃ rooms2, leave rooms roomId ws = some rooms2 ∧
      (∀ p ∈ rooms2, ws ∉ p.2) ∧
      (∀ p ∈ rooms2, p.2 ≠ []) ∧
      (l = [ws] → dictGet rooms2 roomId = none) := by
  have hmem : ws ∈ l := by
    by_contra hn
    rw [List.count_eq_zero.mpr hn] at hcount
    exact absurd hcount (by decide)
  have hgone : ws ∉ removeFirst l ws := removeFirst_not_mem l ws hcount
  have hsetkeys : ((dictSet rooms roomId (removeFirst l ws)).map Prod.fst).Nodup := by
    rw [dictSet_keys]; exact hkeys
  by_cases hempty : removeFirst l ws = []
  · refine ⟨dictDel (dictSet rooms roomId (removeFirst l ws)) roomId, ?_, ?_, ?_, ?_⟩
    · rw [leave, hget]
      simp [hmem, hempty]
    · intro p hp
      have h1 := mem_dictDel_nodup _ roomId p hsetkeys hp
      rcases mem_dictSet_nodup rooms roomId (removeFirst l ws) p hkeys h1.1 with h2 | h2
      · exact absurd (by rw [h2]) h1.2
      · rcases honly p h2.1 with h3 | h3
        · exact absurd h3 h2.2
        · exact h3
    · intro p hp
      have h1 := mem_dictDel_nodup _ roomId p hsetkeys hp
      rcases mem_dictSet_nodup rooms roomId (removeFirst l ws) p hkeys h1.1 with h2 | h2
      · exact absurd (by rw [h2]) h1.2
      · exact hne p h2.1
    · intro _
      exact dictGet_dictDel_self _ roomId hsetkeys
  · refine ⟨dictSet rooms roomId (removeFirst l ws), ?_, ?_, ?_, ?_⟩
    · rw [leave, hget]
      simp [hmem, hempty]
    · intro p hp
      rcases mem_dictSet_nodup rooms roomId (removeFirst l ws) p hkeys hp with h2 | h2
      · rw [h2]; exact hgone
      · rcases honly p h2.1 with h3 | h3
        · exact absurd h3 h2.2
        · exact h3
    · intro p hp
      rcases mem_dictSet_nodup rooms roomId (removeFirst l ws) p hkeys hp with h2 | h2
      · rw [h2]; exact hempty
      · exact hne p h2.1
    · intro hl
      exact absurd (by rw [hl]; simp [removeFirst]) hempty

/-- Witness for C5: rooms r1 = [1, 2] and r2 = [3]; connection 2
disconnects and is then in no room. -/
theorem disconnect_removes_membership_witness :
    leave [("r1", [1, 2]), ("r2", [3])] "r1" 2 = some [("r1", [1]), ("r2", [3])] := by
  have h := disconnect_removes_membership [("r1", [1, 2]), ("r2", [3])] "r1" 2 [1, 2]
    (by decide) (by decide) (by decide) (by decide) (by decide)
  rcases h with ⟨rooms2, hleave, _, _, _⟩
  rw [hleave]
  rw [show leave [("r1", [1, 2]), ("r2", [3])] "r1" 2
      = some [("r1", [1]), ("r2", [3])] from by decide] at hleave
  cases hleave
  rfl

/-! ### Claim C8 -/

/-- C8: the join performed on connect always succeeds (it is a total
function): an absent room identifier gets a fresh entry, a present one gets
the connection appended to its existing member list, key uniqueness is
preserved (never a duplicate room entry), other rooms are untouched, and
the room's membership count grows by exactly one. -/
theorem join_always_succeeds (rooms : Registry) (roomId : String) (ws : Conn)
    (hkeys : (rooms.map Prod.fst).Nodup) :
    dictGet (join rooms roomId ws) roomId = some (((dictGet rooms roomId).getD []) ++ [ws]) ∧
    ((join rooms roomId ws).map Prod.fst).Nodup ∧
    (∀ k, k ≠ roomId → dictGet (join rooms roomId ws) k = dictGet rooms k) ∧
    ((dictGet (join rooms roomId ws) roomId).getD []).length
      = ((dictGet rooms roomId).getD []).length + 1 := by
  cases hg : dictGet rooms roomId with
  | some l =>
      have hjoin : join rooms roomId ws = appendMember rooms roomId ws := by
        rw [join, ensureRoom, hg]
      have hself : dictGet (join rooms roomId ws) roomId = some (l ++ [ws]) := by
        rw [hjoin]; exact dictGet_appendMember_self rooms roomId ws l hg
      refine ⟨by rw [hself]; simp, ?_, ?_, ?_⟩
      · rw [hjoin, appendMember_keys]; exact hkeys
      · intro k hk
        rw [hjoin]; exact dictGet_appendMember_ne rooms roomId ws k hk
      · rw [hself]; simp
  | none =>
      have hnotin : roomId ∉ rooms.map Prod.fst := (dictGet_none_iff rooms roomId).mp hg
      have hjoin : join rooms roomId ws
          = appendMember (rooms ++ [(roomId, [])]) roomId ws := by
        rw [join, ensureRoom, hg]
      have hget2 : dictGet (rooms ++ [(roomId, [])]) roomId = some [] := by
        rw [dictGet_append_right rooms _ roomId hg]; simp [dictGet]
      have hself : dictGet (join rooms roomId ws) roomId = some [ws] := by
        rw [hjoin]
        simpa using dictGet_appendMember_self (rooms ++ [(roomId, [])]) roomId ws [] hget2
      refine ⟨by rw [hself]; simp, ?_, ?_, ?_⟩
      · rw [hjoin, appendMember_keys, List.map_append]
        simp [List.nodup_append, hkeys, hnotin]
      · intro k hk
        have hrk : ¬ roomId = k := fun hh => hk hh.symm
        rw [hjoin, dictGet_appendMember_ne _ roomId ws k hk]
        cases hgk : dictGet rooms k with
        | some lk => exact dictGet_append_left rooms _ k lk hgk
        | none =>
            rw [dictGet_append_right rooms _ k hgk]
            simp [dictGet, hrk]
      · rw [hself]; simp

/-- Witness for C8: joining room abc twice — the first join creates the
entry, the second appends to it rather than duplicating the room. -/
theorem join_always_succeeds_witness :
    dictGet (join [("abc", [1])] "abc" 2) "abc" = some ([1] ++ [2]) := by
  have h := (join_always_succeeds [("abc", [1])] "abc" 2 (by decide)).1
  simpa [dictGet] using h

/-! ### Claim C4 -/

/-- C4 counterexample: connection 1 is joined in room r1 with another member
when its `receive_json` raises a non-disconnect read error; the handler
terminates with zero Leave calls and connection 1's membership entry is
still in the registry. -/
theorem read_error_leaks_membership :
    (runLoop [("r1", [1, 2])] "r1" 1 (fun _ => true) [RecvEvent.readError]).leaveCalls = 0 ∧
    (runLoop [("r1", [1, 2])] "r1" 1 (fun _ => true)
        [RecvEvent.readError]).status = Status.crashedRecv ∧
    dictGet (runLoop [("r1", [1, 2])] "r1" 1 (fun _ => true)
        [RecvEvent.readError]).registry "r1" = some [1, 2] := by
  decide

/-- C4 amended: only the caught `WebSocketDisconnect` path runs the removal
code, exactly once (whether it succeeds or itself raises); a run that ends
in the loop, in an uncaught read error, in a lookup error, or in an
uncaught send error has made no Leave call and leaves the registry — and
hence the terminated connection's membership entry — unchanged. -/
theorem leave_only_on_disconnect (rooms : Registry) (roomId : String) (ws : Conn)
    (ok : Conn → Bool) (es : List RecvEvent) :
    ((runLoop rooms roomId ws ok es).status = Status.done →
      (runLoop rooms roomId ws ok es).leaveCalls = 1) ∧
    ((runLoop rooms roomId ws ok es).status = Status.crashedLeave →
      (runLoop rooms roomId ws ok es).leaveCalls = 1) ∧
    ((runLoop rooms roomId ws ok es).status = Status.running ∨
     (runLoop rooms roomId ws ok es).status = Status.crashedRecv ∨
     (runLoop rooms roomId ws ok es).status = Status.crashedLookup ∨
     (runLoop rooms roomId ws ok es).status = Status.crashedSend →
      (runLoop rooms roomId ws ok es).leaveCalls = 0 ∧
      (runLoop rooms roomId ws ok es).registry = rooms) := by
  induction es with
  | nil => refine ⟨?_, ?_, ?_⟩ <;> simp [runLoop]
  | cons e rest ih =>
      cases e with
      | disconnect =>
          cases hl : leave rooms roomId ws <;>
            refine ⟨?_, ?_, ?_⟩ <;> simp [runLoop, hl]
      | readError => refine ⟨?_, ?_, ?_⟩ <;> simp [runLoop]
      | msg m =>
          cases hg : dictGet rooms roomId with
          | none => refine ⟨?_, ?_, ?_⟩ <;> simp [runLoop, hg]
          | some members =>
              cases he : (broadcastRun members ws m ok).2 with
              | true => refine ⟨?_, ?_, ?_⟩ <;> simp [runLoop, hg, he]
              | false =>
                  have hstep : runLoop rooms roomId ws ok (RecvEvent.msg m :: rest)
                      = ⟨(runLoop rooms roomId ws ok rest).registry,
                         (broadcastRun members ws m ok).1
                           ++ (runLoop rooms roomId ws ok rest).deliveries,
                         (runLoop rooms roomId ws ok rest).status,
                         (runLoop rooms roomId ws ok rest).leaveCalls⟩ := by
                    simp [runLoop, hg, he]
                  rw [hstep]
                  exact ih

/-- Witness for C4 amended, at the read-error run of two members. -/
theorem leave_only_on_disconnect_witness :
    (runLoop [("r1", [1, 2])] "r1" 2 (fun _ => true) [RecvEvent.readError]).leaveCalls = 0 ∧
    (runLoop [("r1", [1, 2])] "r1" 2 (fun _ => true)
        [RecvEvent.readError]).registry = [("r1", [1, 2])] :=
  (leave_only_on_disconnect [("r1", [1, 2])] "r1" 2 (fun _ => true)
    [RecvEvent.readError]).2.2 (Or.inr (Or.inl (by decide)))

/-! ### Claim C6 -/

/-- C6 counterexample: inbound data that is not parseable as a structured
message (`receive_json` raising, e.g., a JSON decode error) terminates the
handler of a joined connection — it is not tolerated; nothing after it is
processed or relayed. -/
theorem unparseable_payload_terminates :
    (runLoop [("r1", [1, 2])] "r1" 1 (fun _ => true)
        [RecvEvent.readError, RecvEvent.msg msgChat]).status = Status.crashedRecv ∧
    (runLoop [("r1", [1, 2])] "r1" 1 (fun _ => true)
        [RecvEvent.readError, RecvEvent.msg msgChat]).deliveries = [] := by
  decide

/-- C6 amended: a parsed message lacking the type field is classified
unknown and is still relayed to the room's other members without
terminating the connection; inbound data that fails to parse, however,
raises an uncaught exception and terminates the connection handler. -/
theorem missing_type_tolerated (rooms : Registry) (roomId : String) (ws : Conn)
    (ok : Conn → Bool) (m : Message) (members : List Conn)
    (hm : msgGet m "type" = none)
    (hget : dictGet rooms roomId = some members)
    (hok : ∀ c ∈ members, c ≠ ws → ok c = true) :
    classify m = Category.unknown ∧
    runLoop rooms roomId ws ok [RecvEvent.msg m]
      = ⟨rooms, (members.filter (fun c => c != ws)).map (fun c => (c, m)),
          Status.running, 0⟩ ∧
    runLoop rooms roomId ws ok [RecvEvent.readError]
      = ⟨rooms, [], Status.crashedRecv, 0⟩ := by
  refine ⟨?_, ?_, rfl⟩
  · simp [classify, pyStrIn, hm]
  · have hb := broadcastRun_eq members ws m ok
    rw [bcastRecip_all_ok members ws ok hok] at hb
    simp [runLoop, hget, hb]

/-- Witness for C6 amended: a record with only a text field is relayed from
1 to 2 and the loop continues. -/
theorem missing_type_tolerated_witness :
    runLoop [("r1", [1, 2])] "r1" 1 (fun _ => true) [RecvEvent.msg msgNoType]
      = ⟨[("r1", [1, 2])], [(2, msgNoType)], Status.running, 0⟩ := by
  have h := (missing_type_tolerated [("r1", [1, 2])] "r1" 1 (fun _ => true) msgNoType [1, 2]
    (by decide) (by decide) (by decide)).2.1
  rw [h]
  decide

/-! ### Claim C10 -/

/-- C10: classification matches the type field by exact, case-sensitive
string equality against the closed sets — a string type equal to chat,
image or file yields content; equal to offer, answer or ice yields signal;
any other string (case variants and padded strings included), a non-string
value, or an absent field yields unknown — and the recipients a broadcast
reaches never depend on the message at all, so an unknown-typed message is
still relayed. -/
theorem classify_exact_sets (m : Message) :
    (∀ t, msgGet m "type" = some (JValue.str t) →
      classify m =
        (if t = "chat" ∨ t = "image" ∨ t = "file" then Category.content
         else if t = "offer" ∨ t = "answer" ∨ t = "ice" then Category.signal
         else Category.unknown)) ∧
    (msgGet m "type" = none → classify m = Category.unknown) ∧
    (∀ v, msgGet m "type" = some v → (∀ t, v ≠ JValue.str t) →
      classify m = Category.unknown) ∧
    (∀ members ws ok,
      (broadcastRun members ws m ok).1.map Prod.fst = (bcastRecip members ws ok).1) := by
  refine ⟨?_, ?_, ?_, ?_⟩
  · intro t ht
    have hcl : classify m
        = (if (["chat", "image", "file"].contains t) = true then Category.content
           else if (["offer", "answer", "ice"].contains t) = true then Category.signal
           else Category.unknown) := by
      simp only [classify, pyStrIn, ht]
    by_cases h1 : t = "chat" ∨ t = "image" ∨ t = "file"
    · have hc : (["chat", "image", "file"].contains t) = true := by
        rcases h1 with h | h | h <;> simp [List.contains, h]
      rw [hcl, if_pos hc, if_pos h1]
    · have h1' := h1
      push_neg at h1'
      have hc : ¬ (["chat", "image", "file"].contains t) = true := by
        simp [List.contains, h1'.1, h1'.2.1, h1'.2.2]
      by_cases h2 : t = "offer" ∨ t = "answer" ∨ t = "ice"
      · have hs : (["offer", "answer", "ice"].contains t) = true := by
          rcases h2 with h | h | h <;> simp [List.contains, h]
        rw [hcl, if_neg hc, if_pos hs, if_neg h1, if_pos h2]
      · have h2' := h2
        push_neg at h2'
        have hs : ¬ (["offer", "answer", "ice"].contains t) = true := by
          simp [List.contains, h2'.1, h2'.2.1, h2'.2.2]
        rw [hcl, if_neg hc, if_neg hs, if_neg h1, if_neg h2]
  · intro h
    simp [classify, pyStrIn, h]
  · intro v hv hns
    cases v with
    | str t => exact absurd rfl (hns t)
    | num n => simp [classify, pyStrIn, hv]
    | boolean b => simp [classify, pyStrIn, hv]
    | null => simp [classify, pyStrIn, hv]
  · intro members ws ok
    have hid : (Prod.fst ∘ fun c : Conn => (c, m)) = id := funext (fun _ => rfl)
    rw [broadcastRun_eq]
    dsimp only
    rw [List.map_map, hid, List.map_id]

/-- Witness for C10: a capitalized Chat type is classified unknown (while
the all-lowercase chat is content), exercising case sensitivity. -/
theorem classify_exact_sets_witness :
    classify [("type", JValue.str "Chat")]
      = (if ("Chat" : String) = "chat" ∨ ("Chat" : String) = "image"
            ∨ ("Chat" : String) = "file" then Category.content
         else if ("Chat" : String) = "offer" ∨ ("Chat" : String) = "answer"
            ∨ ("Chat" : String) = "ice" then Category.signal
         else Category.unknown) :=
  (classify_exact_sets [("type", JValue.str "Chat")]).1 "Chat" (by decide)

end Vynk
